import Mathlib

/-!
Shallow embedding of the core of gvallee/singularity-mpi: the
version-detection config parser (internal/pkg/configparser/configparser.go)
and the experiment-matrix batch runner (the main package).

Go strings are modelled as lists of characters (the inputs of interest are
ASCII, so byte indices and character indices coincide).  A Go operation that
can panic (string slicing with out-of-range or inverted bounds) is modelled
as returning an `Option`, `none` standing for the runtime panic.
-/

set_option autoImplicit false

namespace SingularityMPI

/-- Characters of a Lean string literal, used to write Go string constants. -/
def str (s : String) : List Char := s.data

/-- Go strings.Index: index of the first occurrence of pat in s, none when
pat does not occur (Go returns -1). -/
def goIndex : List Char → List Char → Option Nat
  | [], pat => if pat.isEmpty then some 0 else none
  | c :: rest, pat =>
    if pat.isPrefixOf (c :: rest) then some 0
    else (goIndex rest pat).map (fun n => n + 1)

/-- Go strings.Contains: Index succeeds. -/
def goContains (s pat : List Char) : Bool :=
  (goIndex s pat).isSome

/-- Go string slicing s[a:b]: defined when a ≤ b ≤ len(s), otherwise a
runtime panic (slice bounds out of range), modelled as none. -/
def goSlice (s : List Char) (a b : Nat) : Option (List Char) :=
  if a ≤ b ∧ b ≤ s.length then some ((s.take b).drop a) else none

/-- Embedding of detectOpenMPIVersion (configparser.go:22).  The Go source
checks Contains for both substrings, takes endVersion = Index(line, ".tar"),
startVersion = Index(line, "openmpi-") + 8, and returns
line[startVersion:endVersion]; the `!= -1` guards in the source can never
fail once the Contains checks pass, so the match below never reaches its
fallback arm.  `some v` is the returned string (empty = not detected),
`none` is a slice-bounds panic. -/
def detectOpenMPIVersion (line : List Char) : Option (List Char) :=
  if goContains line (str "openmpi-") && goContains line (str ".tar") then
    match goIndex line (str ".tar"), goIndex line (str "openmpi-") with
    | some endVersion, some startIdx => goSlice line (startIdx + 8) endVersion
    | _, _ => some []
  else
    some []

/-- Embedding of detectMPICHVersion (configparser.go:37); marker "mpich-"
has length 6. -/
def detectMPICHVersion (line : List Char) : Option (List Char) :=
  if goContains line (str "mpich-") && goContains line (str ".tar") then
    match goIndex line (str ".tar"), goIndex line (str "mpich-") with
    | some endVersion, some startIdx => goSlice line (startIdx + 6) endVersion
    | _, _ => some []
  else
    some []

/-- Embedding of detectIntelMPIVersion (configparser.go:52).  Unlike the
other two detectors the Go source sets startVersion to the index of the
marker itself, without adding the marker length, so the returned version
begins with the marker "l_mpi_". -/
def detectIntelMPIVersion (line : List Char) : Option (List Char) :=
  if goContains line (str "l_mpi_") && goContains line (str ".tar") then
    match goIndex line (str ".tar"), goIndex line (str "l_mpi_") with
    | some endVersion, some startIdx => goSlice line startIdx endVersion
    | _, _ => some []
  else
    some []

/-- Embedding of detectMpiImplem (configparser.go:67): try the three
detectors in priority order, first nonempty version wins; ("", "") when
nothing matches.  A panic in a detector propagates. -/
def detectMpiImplem (line : List Char) : Option (List Char × List Char) := do
  let ompiVer ← detectOpenMPIVersion line
  if ompiVer ≠ [] then
    return (str "openmpi", ompiVer)
  else
    let mpichVer ← detectMPICHVersion line
    if mpichVer ≠ [] then
      return (str "mpich", mpichVer)
    else
      let intelVer ← detectIntelMPIVersion line
      if intelVer ≠ [] then
        return (str "intel", intelVer)
      else
        return ([], [])

/-- Key/value entry as produced by the external kv loader
(kv.LoadKeyValueConfig); Parse only ever reads the value field. -/
structure KV where
  key : List Char
  value : List Char
deriving DecidableEq, Repr

/-- Embedding of the Config struct (configparser.go:16).  The Go map
MpiMap (version → URL) is modelled as an association list with pairwise
distinct keys, kept by mapInsert; the private filename field is only ever
stored, never read, and is omitted. -/
structure Config where
  MPIImplem : List Char
  MpiMap : List (List Char × List Char)
deriving DecidableEq, Repr

/-- Go map assignment m[k] = v: replace the value when the key is present,
otherwise add the binding. -/
def mapInsert (m : List (List Char × List Char)) (k v : List Char) :
    List (List Char × List Char) :=
  if m.any (fun p => p.1 == k) then
    m.map (fun p => if p.1 == k then (k, v) else p)
  else
    m ++ [(k, v)]

/-- Errors Parse can produce.  panic stands for a runtime panic propagated
out of detectMpiImplem; the other two tag the fmt.Errorf calls at
configparser.go:113 and configparser.go:120. -/
inductive ParseErr where
  | panic
  | detectFailure (value : List Char)
  | implemConflict (first second : List Char)
deriving DecidableEq, Repr

/-- Loop body of Parse (configparser.go:109-124), processing the kv entries
in order while threading the Config under construction. -/
def parseLoop : Config → List KV → Except ParseErr Config
  | config, [] => .ok config
  | config, e :: rest =>
    match detectMpiImplem e.value with
    | none => .error .panic
    | some (implem, version) =>
      if implem = [] ∨ version = [] then
        .error (.detectFailure e.value)
      else if config.MPIImplem = [] then
        parseLoop { MPIImplem := implem,
                    MpiMap := mapInsert config.MpiMap version e.value } rest
      else if config.MPIImplem ≠ implem then
        .error (.implemConflict config.MPIImplem implem)
      else
        parseLoop { config with MpiMap := mapInsert config.MpiMap version e.value } rest

/-- Embedding of Parse (configparser.go:88), taken after the external
kv.LoadKeyValueConfig call: the entries are given, the Config starts out
zero-valued (empty implementation string, empty map). -/
def Parse (entries : List KV) : Except ParseErr Config :=
  parseLoop { MPIImplem := [], MpiMap := [] } entries

/-- True when detectMpiImplem yields a nonempty implementation and version
(the success condition checked at configparser.go:112). -/
def detectSucceeds (v : List Char) : Bool :=
  match detectMpiImplem v with
  | none => false
  | some (implem, version) => !implem.isEmpty && !version.isEmpty

/-- True exactly when a parse result is the implementation-conflict
error. -/
def isConflictErr : Except ParseErr Config → Bool
  | .error (.implemConflict _ _) => true
  | _ => false

/-- One side of an experiment (pkg/experiments MPI descriptor): the fields
getListExperiments assigns. -/
structure MPIInfo where
  ID : List Char
  Version : List Char
  URL : List Char
deriving DecidableEq, Repr

/-- Embedding of exp.Config: one experiment, host × container pair. -/
structure ExpConfig where
  HostMPI : MPIInfo
  ContainerMPI : MPIInfo
deriving DecidableEq, Repr

/-- Experiment built from two map entries, exactly the field assignments of
getListExperiments (main, lines 42-48). -/
def mkExp (implem : List Char) (p1 p2 : List Char × List Char) : ExpConfig :=
  { HostMPI := { ID := implem, Version := p1.1, URL := p1.2 },
    ContainerMPI := { ID := implem, Version := p2.1, URL := p2.2 } }

/-- Embedding of getListExperiments (main, lines 38-54): the two nested
range loops over config.MpiMap produce one experiment per ordered pair of
map entries. -/
def getListExperiments (config : Config) : List ExpConfig :=
  config.MpiMap.flatMap (fun p1 => config.MpiMap.map (fun p2 => mkExp config.MPIImplem p1 p2))

/-- Status field of one line of the results file. -/
inductive RecStatus where
  | PASS
  | FAIL
  | ERROR
deriving DecidableEq, Repr

/-- One tab-separated line written to the results file by run. -/
structure Record where
  hostVersion : List Char
  containerVersion : List Char
  status : RecStatus
  note : List Char
deriving DecidableEq, Repr

/-- Relevant part of results.Result: the Pass flag and the Note written to
the results file (runExperiment also copies the MPI descriptors into the
result, but run never reads them back).  The Go zero value is
{Pass := false, Note := ""}. -/
structure Result where
  Pass : Bool
  Note : List Char
deriving DecidableEq, Repr

/-- External-collaborator boundary: runExperiment for a given experiment
and iteration number returns the in-memory result and the execution error
(none = err == nil).  The Go loop only ever calls it with iteration
counters 0, 1, ..., so the counter is a natural number. -/
def Runner : Type :=
  ExpConfig → Nat → Result × Option (List Char)

/-- Inner iteration loop of run (main, lines 90-108): for i = 0; i < Nrun;
i++ runs its body exactly (Nrun - i) more times, so the loop is embedded
with that count as a structural fuel argument (fuel 0 is the exit test
i ≥ Nrun); i itself is still passed to the runner.  Body, in source order:
newRes, err := runner(e, i); a non-nil err hits log.Fatalf, which kills the
whole process (modelled as none); the source's second `if err != nil` block
— the only writer of the failure flag, and it writes false — is unreachable
because log.Fatalf has already exited, so the failure flag is threaded
through unchanged; finally `if !newRes.Pass` clears success. -/
def runIterLoop (runner : Runner) (e : ExpConfig) :
    Nat → Nat → Bool → Bool → Result → Option (Bool × Bool × Result)
  | 0, _, success, failure, newRes => some (success, failure, newRes)
  | fuel + 1, i, success, failure, _ =>
    match runner e i with
    | (_, some _) => none
    | (res, none) => runIterLoop runner e fuel (i + 1) (success && res.Pass) failure res

/-- Record written for one experiment after its iteration loop (main,
lines 110-135): ERROR when failure, else FAIL when not success, else PASS;
the note is the last iteration's. -/
def recordFor (e : ExpConfig) (success failure : Bool) (newRes : Result) : Record :=
  if failure then
    { hostVersion := e.HostMPI.Version, containerVersion := e.ContainerMPI.Version,
      status := .ERROR, note := newRes.Note }
  else if !success then
    { hostVersion := e.HostMPI.Version, containerVersion := e.ContainerMPI.Version,
      status := .FAIL, note := newRes.Note }
  else
    { hostVersion := e.HostMPI.Version, containerVersion := e.ContainerMPI.Version,
      status := .PASS, note := newRes.Note }

/-- Embedding of run (main, lines 70-139): process the experiments in
order, each starting from success = true, failure = false and a zero-valued
newRes.  The modelled outputs are the durably written records and whether a
fatal abort (log.Fatalf) occurred: on abort the record for the current
experiment is not written and the remaining experiments are never reached.
The function's in-memory newResults return slice is unobservable after a
fatal exit and is not modelled; file open/sync failures (also fatal) are
outside the embedding. -/
def run (runner : Runner) (nrun : Int) : List ExpConfig → List Record × Bool
  | [] => ([], false)
  | e :: rest =>
    match runIterLoop runner e nrun.toNat 0 true false { Pass := false, Note := [] } with
    | none => ([], true)
    | some (success, failure, newRes) =>
      let r := recordFor e success failure newRes
      let out := run runner nrun rest
      (r :: out.1, out.2)

/-! Concrete values used by witnesses and counterexamples. -/

/-- Sample OpenMPI config entry. -/
def kvOmpi : KV := ⟨str "k1", str "a/openmpi-3.0.4.tar.gz"⟩

/-- Sample MPICH config entry. -/
def kvMpich : KV := ⟨str "k2", str "b/mpich-3.3.tar.gz"⟩

/-- Second OpenMPI entry with the same version 3.0.4 but a different URL. -/
def kvOmpi2 : KV := ⟨str "k3", str "bb/openmpi-3.0.4.tar.gz"⟩

/-- Entry whose value matches no implementation pattern. -/
def kvBad : KV := ⟨str "k4", str "bad"⟩

/-- Sample experiment: host 3.0.4, container 3.1.0. -/
def expA : ExpConfig := mkExp (str "openmpi") (str "3.0.4", str "uA") (str "3.1.0", str "uB")

/-- Sample experiment: host 3.1.0, container 3.0.4. -/
def expB : ExpConfig := mkExp (str "openmpi") (str "3.1.0", str "uB") (str "3.0.4", str "uA")

/-- Runner that fails with an execution error on every iteration. -/
def errRunner : Runner := fun _ _ => (⟨false, []⟩, some (str "boom"))

/-- Runner that passes on every iteration. -/
def okRunner : Runner := fun _ _ => (⟨true, str "ok"⟩, none)

/-- Sample two-version config, as Parse would build it. -/
def cfgTwo : Config :=
  { MPIImplem := str "openmpi",
    MpiMap := [(str "3.0.4", str "uA"), (str "3.1.0", str "uB")] }

/-! Helper lemmas. -/

/-- Once a bad entry (failed detection) is among the remaining entries, the
parse loop cannot succeed, whatever Config has been accumulated. -/
theorem parseLoop_not_ok_of_bad (entries : List KV) :
    ∀ cfg : Config, (∃ e ∈ entries, detectSucceeds e.value = false) →
      (parseLoop cfg entries).isOk = false := by
  induction entries with
  | nil =>
    rintro cfg ⟨e, he, -⟩
    exact absurd he (List.not_mem_nil e)
  | cons a rest ih =>
    rintro cfg ⟨e, he, hbad⟩
    rw [parseLoop]
    cases hdet : detectMpiImplem a.value with
    | none => rfl
    | some p =>
      obtain ⟨implem, version⟩ := p
      by_cases hz : implem = [] ∨ version = []
      · simp only [hz, if_pos, Except.isOk, Except.toBool]
      · have hae : detectSucceeds a.value = true := by
          simp only [detectSucceeds, hdet, Bool.and_eq_true, Bool.not_eq_true']
          push_neg at hz
          simp [List.isEmpty_iff, hz.1, hz.2]
        have hrest : e ∈ rest := by
          rcases List.mem_cons.mp he with h | h
          · exact absurd hbad (by rw [h, hae]; simp)
          · exact h
        simp only [if_neg hz]
        by_cases h0 : cfg.MPIImplem = []
        · simp only [if_pos h0]
          exact ih _ ⟨e, hrest, hbad⟩
        · simp only [if_neg h0]
          by_cases hne : cfg.MPIImplem ≠ implem
          · simp only [if_pos hne, Except.isOk, Except.toBool]
          · simp only [if_neg hne]
            exact ih _ ⟨e, hrest, hbad⟩

/-! Claim theorems. -/

/-- Claim C2 (code bug): the claim says detect is total and yields
Undetected when the computed span is invalid; but on an input whose first
".tar" occurrence lies before the end of the "openmpi-" marker the source
evaluates line[12:0], a slice-bounds panic, modelled as none. -/
theorem C2_detect_panics_on_inverted_span :
    detectMpiImplem (str ".taropenmpi-") = none := by decide

/-- Counterexample to claim C4: Parse on the empty entry sequence succeeds
and returns the zero-valued Config, so a Config can be constructed from
zero entries. -/
theorem C4_counterexample_empty_entries_accepted :
    Parse [] = Except.ok { MPIImplem := [], MpiMap := [] } := rfl

/-- Claim C4 (amended): Parse fails whenever detection fails on any entry,
but an empty entry sequence is not rejected — it yields the Config with
empty implementation string and empty version map. -/
theorem C4_bad_entry_rejected_empty_accepted :
    (∀ entries : List KV, (∃ e ∈ entries, detectSucceeds e.value = false) →
      (Parse entries).isOk = false)
    ∧ Parse [] = Except.ok { MPIImplem := [], MpiMap := [] } :=
  ⟨fun entries h => parseLoop_not_ok_of_bad entries _ h, rfl⟩

/-- Witness for C4: a concrete undetectable entry makes Parse fail. -/
theorem C4_witness : (Parse [kvBad]).isOk = false :=
  C4_bad_entry_rejected_empty_accepted.1 [kvBad] ⟨kvBad, by decide, by decide⟩

/-- Claim C9: when two entries produce the same version string, Parse
succeeds and the later entry's value silently overwrites the earlier one in
the version map (last-write-wins). -/
theorem C9_duplicate_version_last_write_wins (k1 k2 u1 u2 m v : List Char)
    (h1 : detectMpiImplem u1 = some (m, v)) (h2 : detectMpiImplem u2 = some (m, v))
    (hm : m ≠ []) (hv : v ≠ []) :
    Parse [⟨k1, u1⟩, ⟨k2, u2⟩] = Except.ok { MPIImplem := m, MpiMap := [(v, u2)] } := by
  simp [Parse, parseLoop, h1, h2, mapInsert, hm, hv]

/-- Witness for C9: two OpenMPI URLs both carrying version 3.0.4; the
resulting map holds the second URL. -/
theorem C9_witness :
    Parse [kvOmpi, kvOmpi2] =
      Except.ok { MPIImplem := str "openmpi", MpiMap := [(str "3.0.4", kvOmpi2.value)] } :=
  C9_duplicate_version_last_write_wins (str "k1") (str "k3") kvOmpi.value kvOmpi2.value
    (str "openmpi") (str "3.0.4") (by decide) (by decide) (by decide) (by decide)

/-- Once the accumulated implementation is nonempty, the parse loop never
changes it: a successful parse ends with the same implementation. -/
theorem parseLoop_implem_mono (entries : List KV) :
    ∀ cfg out : Config, parseLoop cfg entries = Except.ok out → cfg.MPIImplem ≠ [] →
      out.MPIImplem = cfg.MPIImplem := by
  induction entries with
  | nil =>
    intro cfg out h _
    rw [parseLoop] at h
    cases h
    rfl
  | cons a rest ih =>
    intro cfg out h hne
    rw [parseLoop] at h
    cases hdet : detectMpiImplem a.value with
    | none => rw [hdet] at h; cases h
    | some p =>
      obtain ⟨implem, version⟩ := p
      rw [hdet] at h
      simp only [] at h
      by_cases hz : implem = [] ∨ version = []
      · rw [if_pos hz] at h; cases h
      · rw [if_neg hz, if_neg hne] at h
        by_cases hd : cfg.MPIImplem ≠ implem
        · rw [if_pos hd] at h; cases h
        · rw [if_neg hd] at h
          exact ih { cfg with MpiMap := mapInsert cfg.MpiMap version a.value } out h hne

/-- Every entry consumed by a successful parse loop detects to the final
Config's implementation. -/
theorem parseLoop_ok_detects (entries : List KV) :
    ∀ cfg out : Config, parseLoop cfg entries = Except.ok out →
      ∀ e ∈ entries, (detectMpiImplem e.value).map (fun p => p.1) = some out.MPIImplem := by
  induction entries with
  | nil =>
    intro cfg out _ e he
    exact absurd he (List.not_mem_nil e)
  | cons a rest ih =>
    intro cfg out h e he
    rw [parseLoop] at h
    cases hdet : detectMpiImplem a.value with
    | none => rw [hdet] at h; cases h
    | some p =>
      obtain ⟨implem, version⟩ := p
      rw [hdet] at h
      simp only [] at h
      by_cases hz : implem = [] ∨ version = []
      · rw [if_pos hz] at h; cases h
      · rw [if_neg hz] at h
        by_cases h0 : cfg.MPIImplem = []
        · rw [if_pos h0] at h
          have himp : out.MPIImplem = implem := by
            have := parseLoop_implem_mono rest _ _ h
            simp only [] at this
            exact this (by push_neg at hz; exact hz.1)
          rcases List.mem_cons.mp he with rfl | hr
          · rw [hdet, himp]; rfl
          · exact ih _ _ h e hr
        · rw [if_neg h0] at h
          by_cases hd : cfg.MPIImplem ≠ implem
          · rw [if_pos hd] at h; cases h
          · rw [if_neg hd] at h
            push_neg at hd
            have himp : out.MPIImplem = implem := by
              have := parseLoop_implem_mono rest _ _ h
              simp only [] at this
              rw [this h0, hd]
            rcases List.mem_cons.mp he with rfl | hr
            · rw [hdet, himp]; rfl
            · exact ih _ _ h e hr

/-- Successful detection unpacked. -/
theorem detectSucceeds_spec (u : List Char) (h : detectSucceeds u = true) :
    ∃ i v, detectMpiImplem u = some (i, v) ∧ i ≠ [] ∧ v ≠ [] := by
  unfold detectSucceeds at h
  split at h
  · exact absurd h (by simp)
  · next i v _ =>
    simp only [Bool.and_eq_true, Bool.not_eq_true', List.isEmpty_eq_false] at h
    exact ⟨i, v, by assumption, h.1, h.2⟩

/-- Once the implementation is fixed and nonempty, an entry in the
remainder detecting to a different implementation forces the
implementation-conflict error (all remaining entries detecting
successfully). -/
theorem parseLoop_conflict_of_diff (entries : List KV) :
    ∀ cfg : Config, cfg.MPIImplem ≠ [] →
      (∀ e ∈ entries, detectSucceeds e.value = true) →
      (∃ e ∈ entries, (detectMpiImplem e.value).map (fun p => p.1) ≠ some cfg.MPIImplem) →
      isConflictErr (parseLoop cfg entries) = true := by
  induction entries with
  | nil =>
    rintro cfg _ _ ⟨e, he, -⟩
    exact absurd he (List.not_mem_nil e)
  | cons a rest ih =>
    rintro cfg hne hall ⟨e, he, hdiff⟩
    obtain ⟨i, v, hdet, hi, hv⟩ := detectSucceeds_spec a.value (hall a (List.mem_cons_self a rest))
    rw [parseLoop, hdet]
    simp only []
    rw [if_neg (by simp [hi, hv]), if_neg hne]
    by_cases hd : cfg.MPIImplem ≠ i
    · rw [if_pos hd]
      rfl
    · rw [if_neg hd]
      push_neg at hd
      have hrest : e ∈ rest := by
        rcases List.mem_cons.mp he with rfl | hr
        · exact absurd hdiff (by rw [hdet, hd]; simp)
        · exact hr
      exact ih _ hne (fun x hx => hall x (List.mem_cons_of_mem a hx)) ⟨e, hrest, hdiff⟩

/-- Claim C5: a two-entry sequence whose values detect to different
implementation families fails with the implementation-conflict error in
either order; any entry sequence (all entries detecting) that contains two
entries of different families fails with the conflict error; and every
successfully constructed Config has all its entries detecting to the single
Config implementation. -/
theorem C5_conflict_and_single_implem :
    (∀ (e1 e2 : KV) (i1 v1 i2 v2 : List Char),
      detectMpiImplem e1.value = some (i1, v1) → detectMpiImplem e2.value = some (i2, v2) →
      i1 ≠ [] → v1 ≠ [] → i2 ≠ [] → v2 ≠ [] → i1 ≠ i2 →
      Parse [e1, e2] = Except.error (ParseErr.implemConflict i1 i2))
    ∧ (∀ entries : List KV, (∀ e ∈ entries, detectSucceeds e.value = true) →
      (∃ e1 ∈ entries, ∃ e2 ∈ entries,
        (detectMpiImplem e1.value).map (fun p => p.1) ≠
          (detectMpiImplem e2.value).map (fun p => p.1)) →
      isConflictErr (Parse entries) = true)
    ∧ (∀ (entries : List KV) (cfg : Config), Parse entries = Except.ok cfg →
      ∀ e ∈ entries, (detectMpiImplem e.value).map (fun p => p.1) = some cfg.MPIImplem) := by
  refine ⟨?_, ?_, ?_⟩
  · intro e1 e2 i1 v1 i2 v2 h1 h2 hi1 hv1 hi2 hv2 hne
    simp [Parse, parseLoop, h1, h2, hi1, hv1, hi2, hv2, hne]
  · rintro entries hall ⟨e1, he1, e2, he2, hdiff⟩
    cases entries with
    | nil => exact absurd he1 (List.not_mem_nil e1)
    | cons a rest =>
      obtain ⟨i, v, hdet, hi, hv⟩ :=
        detectSucceeds_spec a.value (hall a (List.mem_cons_self a rest))
      rw [Parse, parseLoop, hdet]
      simp only []
      rw [if_neg (by simp [hi, hv]), if_pos trivial]
      have hhead : (detectMpiImplem a.value).map (fun p => p.1) = some i := by
        rw [hdet]
        rfl
      have hex : ∃ e ∈ rest, (detectMpiImplem e.value).map (fun p => p.1) ≠ some i := by
        rcases List.mem_cons.mp he1 with rfl | hr1
        · rcases List.mem_cons.mp he2 with rfl | hr2
          · exact absurd rfl hdiff
          · exact ⟨e2, hr2, by rw [hhead] at hdiff; exact fun h => hdiff (by rw [h])⟩
        · rcases List.mem_cons.mp he2 with rfl | hr2
          · exact ⟨e1, hr1, by rw [hhead] at hdiff; exact hdiff⟩
          · by_cases hc : (detectMpiImplem e1.value).map (fun p => p.1) = some i
            · exact ⟨e2, hr2, by rw [hc] at hdiff; exact fun h => hdiff (by rw [h])⟩
            · exact ⟨e1, hr1, hc⟩
      exact parseLoop_conflict_of_diff rest _ hi
        (fun x hx => hall x (List.mem_cons_of_mem a hx)) hex
  · intro entries cfg h e he
    exact parseLoop_ok_detects entries _ _ h e he

/-- Witness for C5: OpenMPI before MPICH conflicts, MPICH before OpenMPI
conflicts with the roles swapped, and a one-entry OpenMPI parse yields a
Config whose implementation the entry detects to. -/
theorem C5_witness :
    Parse [kvOmpi, kvMpich] = Except.error (ParseErr.implemConflict (str "openmpi") (str "mpich"))
    ∧ Parse [kvMpich, kvOmpi] = Except.error (ParseErr.implemConflict (str "mpich") (str "openmpi"))
    ∧ isConflictErr (Parse [kvOmpi, kvOmpi2, kvMpich]) = true
    ∧ (detectMpiImplem kvOmpi.value).map (fun p => p.1) = some (str "openmpi") :=
  ⟨C5_conflict_and_single_implem.1 kvOmpi kvMpich (str "openmpi") (str "3.0.4") (str "mpich")
      (str "3.3") (by decide) (by decide) (by decide) (by decide) (by decide) (by decide) (by decide),
   C5_conflict_and_single_implem.1 kvMpich kvOmpi (str "mpich") (str "3.3") (str "openmpi")
      (str "3.0.4") (by decide) (by decide) (by decide) (by decide) (by decide) (by decide) (by decide),
   C5_conflict_and_single_implem.2.1 [kvOmpi, kvOmpi2, kvMpich] (by decide)
      ⟨kvOmpi, by decide, kvMpich, by decide, by decide⟩,
   C5_conflict_and_single_implem.2.2 [kvOmpi]
      { MPIImplem := str "openmpi", MpiMap := [(str "3.0.4", kvOmpi.value)] }
      (by rfl) kvOmpi (by decide)⟩

/-- The iteration loop returns the failure flag it was given: the source's
only assignment to failure sits behind a log.Fatalf and is unreachable. -/
theorem runIterLoop_failure_fixed (runner : Runner) (e : ExpConfig) :
    ∀ (fuel i : Nat) (s f b f' : Bool) (r r' : Result),
      runIterLoop runner e fuel i s f r = some (b, f', r') → f' = f := by
  intro fuel
  induction fuel with
  | zero =>
    intro i s f b f' r r' h
    simp only [runIterLoop] at h
    cases h
    rfl
  | succ fuel ih =>
    intro i s f b f' r r' h
    simp only [runIterLoop] at h
    split at h
    · exact Option.noConfusion h
    · exact ih (i + 1) _ f b f' _ r' h

/-- When the runner errors at iteration j (no error before it, j within the
iteration range), the loop aborts the process. -/
theorem runIterLoop_first_err (runner : Runner) (e : ExpConfig) :
    ∀ (fuel i j : Nat) (s f : Bool) (r : Result),
      i ≤ j → j < i + fuel → (runner e j).2.isSome = true →
      (∀ j', i ≤ j' → j' < j → (runner e j').2 = none) →
      runIterLoop runner e fuel i s f r = none := by
  intro fuel
  induction fuel with
  | zero =>
    intro i j s f r h1 h2 _ _
    omega
  | succ fuel ih =>
    intro i j s f r h1 h2 h3 h4
    simp only [runIterLoop]
    split
    · rfl
    · next res heq =>
      have hij : i ≠ j := by
        intro hij
        subst hij
        rw [heq] at h3
        simp at h3
      exact ih (i + 1) j _ f res (by omega) (by omega) h3 (fun j' ha hb => h4 j' (by omega) hb)

/-- Claim C10: every record run ever writes has status PASS or FAIL; the
failure flag is never true when a record is written, so an ERROR line is
never produced. -/
theorem C10_no_error_record_ever_written (runner : Runner) (nrun : Int)
    (exps : List ExpConfig) :
    ∀ r ∈ (run runner nrun exps).1, r.status ≠ RecStatus.ERROR := by
  induction exps with
  | nil =>
    intro r hr
    exact absurd hr (List.not_mem_nil r)
  | cons e rest ih =>
    intro r hr
    simp only [run] at hr
    split at hr
    · exact absurd hr (List.not_mem_nil r)
    · next success failure newRes heq =>
      have hf : failure = false :=
        runIterLoop_failure_fixed runner e nrun.toNat 0 true false success failure _ newRes heq
      subst hf
      simp only [] at hr
      rcases List.mem_cons.mp hr with rfl | htail
      · simp only [recordFor, if_neg (by simp : ¬(false = true))]
        split <;> simp
      · exact ih r htail

/-- Witness for C10: a concrete record written by a one-iteration passing
run is not an ERROR record. -/
theorem C10_witness :
    ({ hostVersion := str "3.0.4", containerVersion := str "3.1.0",
       status := RecStatus.PASS, note := str "ok" } : Record).status ≠ RecStatus.ERROR :=
  C10_no_error_record_ever_written okRunner 1 [expA] _ (by decide)

/-- Counterexample to claim C1: with a runner failing on the very first
iteration of the first of two experiments, run writes no record at all
(in particular no ERROR record) and aborts instead of proceeding to the
second experiment. -/
theorem C1_counterexample : run errRunner 1 [expA, expB] = ([], true) := by decide

/-- Claim C1 (amended): when the runner returns a non-nil execution error
at some iteration, the iteration loop stops early, but instead of recording
an ERROR and moving on, the whole batch aborts fatally (log.Fatalf): no
record is written for the current experiment and the remaining experiments
are never attempted. -/
theorem C1_exec_error_aborts_batch (runner : Runner) (nrun : Int) (e : ExpConfig)
    (rest : List ExpConfig) (j : Nat) (hj : j < nrun.toNat)
    (herr : (runner e j).2.isSome = true)
    (hfirst : ∀ j', j' < j → (runner e j').2 = none) :
    run runner nrun (e :: rest) = ([], true) := by
  have hloop : runIterLoop runner e nrun.toNat 0 true false { Pass := false, Note := [] } = none :=
    runIterLoop_first_err runner e nrun.toNat 0 j true false _ (Nat.zero_le j) (by omega)
      herr (fun j' _ hb => hfirst j' hb)
  simp only [run, hloop]

/-- Witness for C1 (amended): erroring runner, two configured iterations,
one experiment: the batch aborts with nothing written. -/
theorem C1_witness : run errRunner 2 [expB] = ([], true) :=
  C1_exec_error_aborts_batch errRunner 2 expB [] 0 (by decide) (by decide)
    (fun j' h => absurd h (Nat.not_lt_zero j'))

/-- Counterexample to claim C8: with N = 0 the run is not rejected; the
loop body never executes and a PASS record with the zero-valued note is
written for the experiment — even though the runner would error on every
iteration. -/
theorem C8_counterexample : run errRunner 0 [expA] =
    ([{ hostVersion := str "3.0.4", containerVersion := str "3.1.0",
        status := RecStatus.PASS, note := [] }], false) := by rfl

/-- Claim C8 (amended): the run count N is never validated; for N = 0 or
negative N every experiment still yields a record — a PASS record with the
zero value's empty note — instead of the run being rejected as a
configuration error. -/
theorem C8_nonpositive_n_not_rejected (runner : Runner) (nrun : Int) (hn : nrun ≤ 0) :
    ∀ exps : List ExpConfig,
      run runner nrun exps =
        (exps.map (fun e => { hostVersion := e.HostMPI.Version,
                              containerVersion := e.ContainerMPI.Version,
                              status := RecStatus.PASS, note := [] }), false) := by
  have h0 : nrun.toNat = 0 := by omega
  intro exps
  induction exps with
  | nil => simp [run]
  | cons e rest ih =>
    simp only [run, h0, runIterLoop, ih, List.map]
    simp [recordFor]

/-- Witness for C8 (amended): N = -3 with an erroring runner still writes
one PASS record per experiment. -/
theorem C8_witness : run errRunner (-3) [expA, expB] =
    ([{ hostVersion := str "3.0.4", containerVersion := str "3.1.0",
        status := RecStatus.PASS, note := [] },
      { hostVersion := str "3.1.0", containerVersion := str "3.0.4",
        status := RecStatus.PASS, note := [] }], false) :=
  C8_nonpositive_n_not_rejected errRunner (-3) (by norm_num) [expA, expB]

/-- Error-free loop characterization: with at least one iteration and no
execution error in range, the loop ends with the failure flag unchanged,
the last iteration's result as newRes, and success true exactly when it
started true and every iteration passed. -/
theorem runIterLoop_noerr (runner : Runner) (e : ExpConfig) :
    ∀ (fuel i : Nat) (s f : Bool) (r : Result),
      0 < fuel →
      (∀ j, i ≤ j → j < i + fuel → (runner e j).2 = none) →
      ∃ b : Bool,
        runIterLoop runner e fuel i s f r = some (b, f, (runner e (i + fuel - 1)).1)
        ∧ (b = true ↔ (s = true ∧ ∀ j, i ≤ j → j < i + fuel → (runner e j).1.Pass = true)) := by
  intro fuel
  induction fuel with
  | zero =>
    intro i s f r h
    exact absurd h (lt_irrefl 0)
  | succ fuel ih =>
    intro i s f r _ hnoerr
    have hi : (runner e i).2 = none := hnoerr i le_rfl (by omega)
    simp only [runIterLoop]
    split
    · next heq =>
      rw [heq] at hi
      exact absurd hi (by simp)
    · next res heq =>
      by_cases hf : 0 < fuel
      · obtain ⟨b, hb, hiff⟩ := ih (i + 1) (s && res.Pass) f res hf
          (fun j h1 h2 => hnoerr j (by omega) (by omega))
        have hidx : i + 1 + fuel - 1 = i + (fuel + 1) - 1 := by omega
        rw [hidx] at hb
        refine ⟨b, hb, ?_⟩
        rw [hiff]
        constructor
        · rintro ⟨hsp, hall⟩
          rw [Bool.and_eq_true] at hsp
          refine ⟨hsp.1, fun j h1 h2 => ?_⟩
          rcases Nat.eq_or_lt_of_le h1 with rfl | hlt
          · rw [heq]
            exact hsp.2
          · exact hall j (by omega) (by omega)
        · rintro ⟨hs, hall⟩
          have hres : res.Pass = true := by
            have h := hall i le_rfl (by omega)
            rw [heq] at h
            exact h
          exact ⟨by rw [hs, hres]; rfl, fun j h1 h2 => hall j (by omega) (by omega)⟩
      · have h0 : fuel = 0 := by omega
        subst h0
        simp only [runIterLoop]
        have hidx : i + (0 + 1) - 1 = i := by omega
        rw [hidx, heq]
        refine ⟨s && res.Pass, rfl, ?_⟩
        constructor
        · intro hsp
          rw [Bool.and_eq_true] at hsp
          refine ⟨hsp.1, fun j h1 h2 => ?_⟩
          have hj : j = i := by omega
          subst hj
          rw [heq]
          exact hsp.2
        · rintro ⟨hs, hall⟩
          have hres := hall i le_rfl (by omega)
          rw [heq] at hres
          rw [hs, hres]
          rfl

/-- Claim C6: if all N (N ≥ 1) iterations of one experiment complete
without execution error, exactly one record is appended; it carries the
last iteration's note, its status is PASS exactly when every iteration
passed and FAIL exactly when some iteration did not pass. -/
theorem C6_aggregation (runner : Runner) (e : ExpConfig) (nrun : Int)
    (hpos : 0 < nrun)
    (hnoerr : ∀ i : Nat, i < nrun.toNat → (runner e i).2 = none) :
    ∃ st : RecStatus,
      run runner nrun [e] =
        ([{ hostVersion := e.HostMPI.Version, containerVersion := e.ContainerMPI.Version,
            status := st, note := (runner e (nrun.toNat - 1)).1.Note }], false)
      ∧ (st = RecStatus.PASS ↔ ∀ i : Nat, i < nrun.toNat → (runner e i).1.Pass = true)
      ∧ (st = RecStatus.FAIL ↔ ∃ i : Nat, i < nrun.toNat ∧ (runner e i).1.Pass = false) := by
  obtain ⟨b, hb, hiff⟩ := runIterLoop_noerr runner e nrun.toNat 0 true false
    { Pass := false, Note := [] } (by omega) (fun j _ h2 => hnoerr j (by omega))
  rw [Nat.zero_add] at hb
  simp only [run, hb, recordFor]
  cases b with
  | true =>
    have hall := hiff.mp rfl
    refine ⟨RecStatus.PASS, by simp, ?_, ?_⟩
    · exact iff_of_true rfl (fun i hi => hall.2 i (by omega) (by omega))
    · refine iff_of_false (by simp) ?_
      rintro ⟨i, hi, hp⟩
      rw [hall.2 i (by omega) (by omega)] at hp
      exact Bool.noConfusion hp
  | false =>
    have hnall : ¬(true = true ∧ ∀ j, 0 ≤ j → j < 0 + nrun.toNat → (runner e j).1.Pass = true) := by
      intro h
      exact Bool.noConfusion (hiff.mpr h)
    push_neg at hnall
    obtain ⟨j, -, hj2, hjp⟩ := hnall rfl
    refine ⟨RecStatus.FAIL, by simp, ?_, ?_⟩
    · refine iff_of_false (by simp) ?_
      intro hall
      exact hjp (hall j (by omega))
    · exact iff_of_true rfl ⟨j, by omega, Bool.not_eq_true _ ▸ Bool.eq_false_iff.mpr hjp⟩

/-- Witness for C6: two error-free iterations where both pass give a single
PASS record carrying the second iteration's note. -/
theorem C6_witness :
    run okRunner 2 [expA] =
      ([{ hostVersion := str "3.0.4", containerVersion := str "3.1.0",
          status := RecStatus.PASS, note := str "ok" }], false) := by
  obtain ⟨st, heq, hpass, -⟩ := C6_aggregation okRunner expA 2 (by norm_num) (fun i _ => rfl)
  have hst : st = RecStatus.PASS := hpass.mpr (fun i _ => rfl)
  rw [hst] at heq
  exact heq

/-- An occurrence index returned by goIndex leaves room for the pattern
inside the string. -/
theorem goIndex_some_le (s : List Char) :
    ∀ (pat : List Char) (j : Nat), goIndex s pat = some j → j + pat.length ≤ s.length := by
  induction s with
  | nil =>
    intro pat j h
    rw [goIndex] at h
    split at h
    · cases h
      next he => simp [List.isEmpty_iff.mp he]
    · exact Option.noConfusion h
  | cons c rest ih =>
    intro pat j h
    rw [goIndex] at h
    split at h
    · cases h
      next hp =>
        simpa using (List.isPrefixOf_iff_prefix.mp hp).length_le
    · obtain ⟨j', hj', rfl⟩ := Option.map_eq_some'.mp h
      have := ih pat j' hj'
      simp only [List.length_cons]
      omega

/-- Evaluation of the OpenMPI detector when the marker occurs at i and the
first ".tar" at j, with a valid span. -/
theorem detectOpenMPIVersion_eq (line : List Char) (i j : Nat)
    (h1 : goIndex line (str "openmpi-") = some i) (h2 : goIndex line (str ".tar") = some j)
    (hle : i + 8 ≤ j) :
    detectOpenMPIVersion line = some ((line.take j).drop (i + 8)) := by
  have hj : j + (str ".tar").length ≤ line.length := goIndex_some_le line (str ".tar") j h2
  have h4 : (str ".tar").length = 4 := rfl
  rw [detectOpenMPIVersion, if_pos (by simp [goContains, h1, h2])]
  simp only [h1, h2]
  rw [goSlice, if_pos ⟨hle, by omega⟩]

/-- Evaluation of the MPICH detector (marker length 6). -/
theorem detectMPICHVersion_eq (line : List Char) (i j : Nat)
    (h1 : goIndex line (str "mpich-") = some i) (h2 : goIndex line (str ".tar") = some j)
    (hle : i + 6 ≤ j) :
    detectMPICHVersion line = some ((line.take j).drop (i + 6)) := by
  have hj : j + (str ".tar").length ≤ line.length := goIndex_some_le line (str ".tar") j h2
  have h4 : (str ".tar").length = 4 := rfl
  rw [detectMPICHVersion, if_pos (by simp [goContains, h1, h2])]
  simp only [h1, h2]
  rw [goSlice, if_pos ⟨hle, by omega⟩]

/-- Evaluation of the Intel detector: the slice starts at the marker index
itself. -/
theorem detectIntelMPIVersion_eq (line : List Char) (i j : Nat)
    (h1 : goIndex line (str "l_mpi_") = some i) (h2 : goIndex line (str ".tar") = some j)
    (hle : i ≤ j) :
    detectIntelMPIVersion line = some ((line.take j).drop i) := by
  have hj : j + (str ".tar").length ≤ line.length := goIndex_some_le line (str ".tar") j h2
  have h4 : (str ".tar").length = 4 := rfl
  rw [detectIntelMPIVersion, if_pos (by simp [goContains, h1, h2])]
  simp only [h1, h2]
  rw [goSlice, if_pos ⟨hle, by omega⟩]

/-- A detector whose marker does not occur returns the empty version. -/
theorem detectOpenMPIVersion_of_no_marker (line : List Char)
    (h : goContains line (str "openmpi-") = false) : detectOpenMPIVersion line = some [] := by
  rw [detectOpenMPIVersion, if_neg]
  simp [h]

/-- A detector whose marker does not occur returns the empty version. -/
theorem detectMPICHVersion_of_no_marker (line : List Char)
    (h : goContains line (str "mpich-") = false) : detectMPICHVersion line = some [] := by
  rw [detectMPICHVersion, if_neg]
  simp [h]

/-- The middle slice is nonempty when the span is nonempty and in range. -/
theorem slice_ne_nil (line : List Char) (a j : Nat) (hlt : a < j) (hj : j ≤ line.length) :
    (line.take j).drop a ≠ [] := by
  have hlen : ((line.take j).drop a).length = j - a := by
    rw [List.length_drop, List.length_take]
    omega
  intro hnil
  rw [hnil] at hlen
  simp at hlen
  omega

/-- Priority chain: a nonempty OpenMPI version short-circuits. -/
theorem detectMpiImplem_of_ompi (line v : List Char)
    (h : detectOpenMPIVersion line = some v) (hne : v ≠ []) :
    detectMpiImplem line = some (str "openmpi", v) := by
  simp [detectMpiImplem, h, hne]

/-- Priority chain: MPICH wins when OpenMPI detected nothing. -/
theorem detectMpiImplem_of_mpich (line v : List Char)
    (h0 : detectOpenMPIVersion line = some []) (h : detectMPICHVersion line = some v)
    (hne : v ≠ []) :
    detectMpiImplem line = some (str "mpich", v) := by
  simp [detectMpiImplem, h0, h, hne]

/-- Priority chain: Intel wins when the other two detected nothing. -/
theorem detectMpiImplem_of_intel (line v : List Char)
    (h0 : detectOpenMPIVersion line = some []) (h1 : detectMPICHVersion line = some [])
    (h : detectIntelMPIVersion line = some v) (hne : v ≠ []) :
    detectMpiImplem line = some (str "intel", v) := by
  simp [detectMpiImplem, h0, h1, h, hne]

/-- Counterexample to claim C3: on "l_mpi_2019.tar.gz" the text strictly
between the end of the "l_mpi_" marker and the ".tar" start is "2019", but
detect returns "l_mpi_2019" — the Intel version keeps the marker prefix. -/
theorem C3_counterexample :
    detectMpiImplem (str "l_mpi_2019.tar.gz") = some (str "intel", str "l_mpi_2019")
    ∧ detectMpiImplem (str "l_mpi_2019.tar.gz") ≠ some (str "intel", str "2019") := by
  constructor
  · decide
  · decide

/-- Claim C3 (amended): when a marker is followed (beyond the marker, with
a nonempty gap) by the string's first ".tar" occurrence, detect returns the
text strictly between marker end and ".tar" start for OpenMPI and MPICH;
for Intel MPI the returned version instead starts at the marker itself and
so includes the "l_mpi_" prefix. -/
theorem C3_version_is_marker_to_tar_span (line : List Char) :
    (∀ i j : Nat, goIndex line (str "openmpi-") = some i →
      goIndex line (str ".tar") = some j → i + 8 < j →
      detectMpiImplem line = some (str "openmpi", (line.take j).drop (i + 8)))
    ∧ (∀ i j : Nat, goContains line (str "openmpi-") = false →
      goIndex line (str "mpich-") = some i →
      goIndex line (str ".tar") = some j → i + 6 < j →
      detectMpiImplem line = some (str "mpich", (line.take j).drop (i + 6)))
    ∧ (∀ i j : Nat, goContains line (str "openmpi-") = false →
      goContains line (str "mpich-") = false →
      goIndex line (str "l_mpi_") = some i →
      goIndex line (str ".tar") = some j → i < j →
      detectMpiImplem line = some (str "intel", (line.take j).drop i)) := by
  refine ⟨fun i j h1 h2 hlt => ?_, fun i j h0 h1 h2 hlt => ?_, fun i j h0 h0' h1 h2 hlt => ?_⟩
  · have hj : j + (str ".tar").length ≤ line.length := goIndex_some_le line (str ".tar") j h2
    exact detectMpiImplem_of_ompi line _ (detectOpenMPIVersion_eq line i j h1 h2 (by omega))
      (slice_ne_nil line (i + 8) j hlt (by have : (str ".tar").length = 4 := rfl; omega))
  · have hj : j + (str ".tar").length ≤ line.length := goIndex_some_le line (str ".tar") j h2
    exact detectMpiImplem_of_mpich line _ (detectOpenMPIVersion_of_no_marker line h0)
      (detectMPICHVersion_eq line i j h1 h2 (by omega))
      (slice_ne_nil line (i + 6) j hlt (by have : (str ".tar").length = 4 := rfl; omega))
  · have hj : j + (str ".tar").length ≤ line.length := goIndex_some_le line (str ".tar") j h2
    exact detectMpiImplem_of_intel line _ (detectOpenMPIVersion_of_no_marker line h0)
      (detectMPICHVersion_of_no_marker line h0')
      (detectIntelMPIVersion_eq line i j h1 h2 (by omega))
      (slice_ne_nil line i j hlt (by have : (str ".tar").length = 4 := rfl; omega))

/-- Witness for C3 (amended): the three shapes at concrete URLs, marker at
index 0 and ".tar" at index 13, 9 and 10 respectively. -/
theorem C3_witness :
    detectMpiImplem (str "openmpi-3.0.4.tar.gz")
      = some (str "openmpi", ((str "openmpi-3.0.4.tar.gz").take 13).drop 8)
    ∧ detectMpiImplem (str "mpich-3.3.tar.gz")
      = some (str "mpich", ((str "mpich-3.3.tar.gz").take 9).drop 6)
    ∧ detectMpiImplem (str "l_mpi_2019.tar.gz")
      = some (str "intel", ((str "l_mpi_2019.tar.gz").take 10).drop 0) :=
  ⟨(C3_version_is_marker_to_tar_span (str "openmpi-3.0.4.tar.gz")).1 0 13
      (by decide) (by decide) (by decide),
   (C3_version_is_marker_to_tar_span (str "mpich-3.3.tar.gz")).2.1 0 9
      (by decide) (by decide) (by decide) (by decide),
   (C3_version_is_marker_to_tar_span (str "l_mpi_2019.tar.gz")).2.2 0 10
      (by decide) (by decide) (by decide) (by decide) (by decide)⟩

/-- mkExp is injective in the two map entries (the implementation label
being fixed). -/
theorem mkExp_inj (c : List Char) (p1 p2 q1 q2 : List Char × List Char)
    (h : mkExp c p1 p2 = mkExp c q1 q2) : p1 = q1 ∧ p2 = q2 := by
  simp only [mkExp, ExpConfig.mk.injEq, MPIInfo.mk.injEq, true_and] at h
  obtain ⟨⟨h1, h2⟩, h3, h4⟩ := h
  exact ⟨Prod.ext h1 h2, Prod.ext h3 h4⟩

/-- Length of a flatMap whose pieces all have the same length. -/
theorem length_flatMap_const {α β : Type} (l : List α) (f : α → List β) (n : Nat)
    (h : ∀ a ∈ l, (f a).length = n) : (l.flatMap f).length = l.length * n := by
  induction l with
  | nil => simp
  | cons a t ih =>
    simp only [List.flatMap_cons, List.length_append, List.length_cons]
    rw [h a (List.mem_cons_self a t), ih (fun x hx => h x (List.mem_cons_of_mem a hx))]
    ring

/-- Claim C7: on a Config whose k version keys are distinct, the matrix
builder yields exactly k·k pairwise-distinct experiments — the full
Cartesian product of the version entries with themselves — and the k
distinct diagonal self-paired experiments are among them. -/
theorem C7_full_matrix (cfg : Config) (hk : (cfg.MpiMap.map Prod.fst).Nodup) :
    (getListExperiments cfg).length = cfg.MpiMap.length * cfg.MpiMap.length
    ∧ (∀ p1 ∈ cfg.MpiMap, ∀ p2 ∈ cfg.MpiMap,
        mkExp cfg.MPIImplem p1 p2 ∈ getListExperiments cfg)
    ∧ (∀ ex ∈ getListExperiments cfg,
        ∃ p1 ∈ cfg.MpiMap, ∃ p2 ∈ cfg.MpiMap, ex = mkExp cfg.MPIImplem p1 p2)
    ∧ (getListExperiments cfg).Nodup
    ∧ (cfg.MpiMap.map (fun p => mkExp cfg.MPIImplem p p)).Nodup
    ∧ (∀ p ∈ cfg.MpiMap, mkExp cfg.MPIImplem p p ∈ getListExperiments cfg) := by
  have hmap : cfg.MpiMap.Nodup := hk.of_map
  have hpair : cfg.MpiMap.Pairwise (fun a b => a.1 ≠ b.1) := by
    rw [List.Nodup, List.pairwise_map] at hk
    exact hk
  refine ⟨?_, ?_, ?_, ?_, ?_, ?_⟩
  · exact length_flatMap_const _ _ _ (fun a _ => by simp)
  · intro p1 hp1 p2 hp2
    simp only [getListExperiments, List.mem_flatMap, List.mem_map]
    exact ⟨p1, hp1, p2, hp2, rfl⟩
  · intro ex hex
    simp only [getListExperiments, List.mem_flatMap, List.mem_map] at hex
    obtain ⟨p1, hp1, p2, hp2, rfl⟩ := hex
    exact ⟨p1, hp1, p2, hp2, rfl⟩
  · rw [getListExperiments, List.nodup_flatMap]
    constructor
    · intro p1 _
      refine hmap.map ?_
      intro a b hab
      exact (mkExp_inj cfg.MPIImplem p1 a p1 b hab).2
    · refine hpair.imp ?_
      intro a b hab
      intro x hxa hxb
      obtain ⟨pa, _, rfl⟩ := List.mem_map.mp hxa
      obtain ⟨pb, _, heq⟩ := List.mem_map.mp hxb
      have := (mkExp_inj cfg.MPIImplem b pb a pa heq).1
      exact hab (by rw [this])
  · refine hmap.map ?_
    intro a b hab
    exact (mkExp_inj cfg.MPIImplem a a b b hab).1
  · intro p hp
    simp only [getListExperiments, List.mem_flatMap, List.mem_map]
    exact ⟨p, hp, p, hp, rfl⟩

/-- Witness for C7: the two-version sample config yields 4 pairwise
distinct experiments. -/
theorem C7_witness :
    (getListExperiments cfgTwo).length = 4 ∧ (getListExperiments cfgTwo).Nodup := by
  obtain ⟨hlen, -, -, hnd, -, -⟩ := C7_full_matrix cfgTwo (by decide)
  refine ⟨?_, hnd⟩
  rw [hlen]
  rfl

end SingularityMPI
